import Mathlib

/-!
Verification development for the on-chain data acquisition pipeline
(`elfpy/data/acquire_data.py`, function `main`).

The embedding models `main` as a deterministic function of its external
oracles:

* `Env.stateOracle b k` is the result of the `k`-th call (0-indexed) of
  `contract_interface.get_block_pool_info` for block `b`: `none` models the
  `ValueError` the source mentions ("crashes randomly with ValueError"),
  `some pi` a returned `PoolInfo` object.  A `PoolInfo` is abstracted to its
  `blockNumber` together with its Python truthiness (`if block_pool_info:`
  at line 105 branches on it; the class is defined outside this file's
  sources, so truthiness is kept abstract as a field).
* `Env.txOracle b` is the list returned by
  `contract_interface.fetch_transactions_for_block` for block `b`.
* The successive values returned by `web3.eth.get_block_number()` are the
  parameter `latest0` (the read at line 51 during initialization) and the
  list `latests` (one read per iteration of the `while True:` loop,
  line 75).

Side effects (log lines, file writes with their full dumped contents,
postgres upserts, sleeps) are recorded in an event trace, in program order.
The unbounded `while True: ... except ValueError` retry at lines 94-103 is
given fuel; exhausting the fuel models the retry still spinning forever,
and is reported as a distinguished outcome.
-/

namespace AcquireData

/-- A pool-state record as produced by `get_block_pool_info`: abstracted to
its block number and its Python truthiness (used at line 105). -/
structure PoolInfo where
  blockNumber : Nat
  truthy : Bool
  deriving DecidableEq, Repr

/-- A decoded transaction record as returned by
`fetch_transactions_for_block`; abstracted to its block number and an index
distinguishing records. -/
structure TransactionRecord where
  blockNumber : Nat
  txIndex : Nat
  deriving DecidableEq, Repr

/-- The external collaborators of the loop: the state extractor (indexed by
block and by attempt number, `none` = raises `ValueError`) and the
transaction extractor. -/
structure Env where
  stateOracle : Nat → Nat → Option PoolInfo
  txOracle : Nat → List TransactionRecord

/-- Observable side effects of `main`, in program order. File-write events
carry the complete content dumped by `json.dump` (the files are opened with
mode `w`, i.e. overwritten). -/
inductive Event where
  | writeConfigFile
  | clampWarn (b : Nat)
  | cursorSet (b : Nat)
  | infoLog (b : Nat)
  | skipWarn (b : Nat)
  | extractState (b : Nat) (attempt : Nat)
  | retryWarn (b : Nat)
  | sleepBackoff
  | persist (recs : List PoolInfo)
  | extractTx (b : Nat)
  | writePoolInfoFile (recs : List PoolInfo)
  | writeTxFile (recs : List TransactionRecord)
  | sleepPoll
  deriving DecidableEq, Repr

/-- Final outcome of a (finite) run: normal state after consuming all
polled block heights, an uncaught `ValueError` escaping `main`, or the
transient-retry loop still spinning (fuel exhausted). -/
inductive Outcome where
  | ok (cursor : Nat) (poolBuf : List PoolInfo) (txBuf : List TransactionRecord)
  | raisedValueError
  | outOfFuel
  deriving DecidableEq, Repr

/-- Lines 50-55: clamp of the starting block, over Python integers.
Returns the effective starting cursor and whether the warning at line 55
was logged. -/
def clampStartI (startBlock latest lookbackLimit : Int) : Int × Bool :=
  if latest - startBlock > lookbackLimit then (latest - lookbackLimit, true)
  else (startBlock, false)

/-- Lines 50-55 restricted to natural block numbers (the subtraction is
truncated; when the clamp fires `latest > lookbackLimit`, so it agrees
with the Python integer arithmetic — see `clampStartI_agrees`). -/
def clampStart (startBlock latest lookbackLimit : Nat) : Nat × Bool :=
  if latest - startBlock > lookbackLimit then (latest - lookbackLimit, true)
  else (startBlock, false)

/-- Events of the retry loop at lines 94-103, starting at attempt `a`:
each failed call logs the warning at line 101 and sleeps 0.1s; the loop
exits on the first successful call. -/
def retryEvents (env : Env) (b : Nat) : Nat → Nat → List Event
  | 0, _ => []
  | fuel + 1, a =>
    Event.extractState b a ::
      match env.stateOracle b a with
      | some _ => []
      | none => Event.retryWarn b :: Event.sleepBackoff :: retryEvents env b fuel (a + 1)

/-- Value produced by the retry loop at lines 94-103 (first successful
result), `none` when the fuel runs out before any success. -/
def retryResult (env : Env) (b : Nat) : Nat → Nat → Option PoolInfo
  | 0, _ => none
  | fuel + 1, a =>
    match env.stateOracle b a with
    | some pi => some pi
    | none => retryResult env b fuel (a + 1)

/-- Events of one iteration of the `for block_int in range(...)` body,
lines 79-112: cursor assignment (line 80), info log (line 81), lookback
skip (lines 84-90), retry loop (94-103), conditional persist and buffer
append (105-107), transaction fetch (108-110). -/
def blockEvents (env : Env) (fuel latest lookbackLimit b : Nat) : List Event :=
  Event.cursorSet b :: Event.infoLog b ::
    (if latest - b > lookbackLimit then [Event.skipWarn b]
     else
       retryEvents env b fuel 0 ++
         match retryResult env b fuel 0 with
         | none => []
         | some pi =>
           (if pi.truthy then [Event.persist [pi]] else []) ++ [Event.extractTx b])

/-- Buffer update of one iteration of the block loop: the pool buffer gains
the record iff it is truthy (lines 105-107), the transaction buffer is
extended iff the fetched list is nonempty (lines 111-112); `none` when the
retry loop never succeeds (the iteration never finishes). -/
def blockUpdate (env : Env) (fuel latest lookbackLimit b : Nat)
    (bufs : List PoolInfo × List TransactionRecord) :
    Option (List PoolInfo × List TransactionRecord) :=
  if latest - b > lookbackLimit then some bufs
  else
    match retryResult env b fuel 0 with
    | none => none
    | some pi =>
      some ((if pi.truthy then bufs.1 ++ [pi] else bufs.1),
        if env.txOracle b = [] then bufs.2 else bufs.2 ++ env.txOracle b)

/-- The records the block loop adds to the pool-info buffer for block `b`. -/
def blockNewPool (env : Env) (fuel latest lookbackLimit b : Nat) : List PoolInfo :=
  if latest - b > lookbackLimit then []
  else
    match retryResult env b fuel 0 with
    | none => []
    | some pi => if pi.truthy then [pi] else []

/-- The records the block loop adds to the transaction buffer for block `b`. -/
def blockNewTx (env : Env) (fuel latest lookbackLimit b : Nat) : List TransactionRecord :=
  if latest - b > lookbackLimit then []
  else
    match retryResult env b fuel 0 with
    | none => []
    | some _ => env.txOracle b

/-- The block numbers iterated by `range(block_number + 1, latest_block_number + 1)`
at line 79. -/
def tickBlocks (cursor latest : Nat) : List Nat :=
  List.range' (cursor + 1) (latest - cursor)

/-- The `for` loop over a tick's blocks, threading the two accumulation
buffers; stops (result `none`) if some block's retry loop never succeeds. -/
def processBlocks (env : Env) (fuel latest lookbackLimit : Nat) :
    List Nat → List PoolInfo × List TransactionRecord →
    List Event × Option (List PoolInfo × List TransactionRecord)
  | [], bufs => ([], some bufs)
  | b :: rest, bufs =>
    match blockUpdate env fuel latest lookbackLimit b bufs with
    | none => (blockEvents env fuel latest lookbackLimit b, none)
    | some bufs2 =>
      let r := processBlocks env fuel latest lookbackLimit rest bufs2
      (blockEvents env fuel latest lookbackLimit b ++ r.1, r.2)

/-- One iteration of the `while True:` loop, lines 74-119, for one observed
`latest_block_number`: if new blocks exist, process them and overwrite the
two snapshot files with the full buffers (lines 113-118); in all cases
sleep for the poll interval (line 119). State is (cursor, pool buffer,
transaction buffer). -/
def tick (env : Env) (fuel lookbackLimit : Nat)
    (st : Nat × List PoolInfo × List TransactionRecord) (latest : Nat) :
    List Event × Option (Nat × List PoolInfo × List TransactionRecord) :=
  if st.1 < latest then
    match processBlocks env fuel latest lookbackLimit (tickBlocks st.1 latest) (st.2.1, st.2.2) with
    | (evs, none) => (evs, none)
    | (evs, some (p, t)) =>
      (evs ++ [Event.writePoolInfoFile p, Event.writeTxFile t, Event.sleepPoll],
        some (latest, p, t))
  else ([Event.sleepPoll], some st)

/-- Initialization, lines 44-70: config write, lookback clamp of the start
block, the initial `get_block_pool_info` call (line 60 — not guarded by any
retry: a `ValueError` here escapes, modelled by result `none`),
unconditional append, pool-info file write, postgres upsert. -/
def initAcquire (env : Env) (startBlock latest0 lookbackLimit : Nat) :
    List Event × Option (Nat × List PoolInfo × List TransactionRecord) :=
  let cw := clampStart startBlock latest0 lookbackLimit
  let evs0 := Event.writeConfigFile :: (if cw.2 then [Event.clampWarn cw.1] else [])
  match env.stateOracle cw.1 0 with
  | none => (evs0 ++ [Event.extractState cw.1 0], none)
  | some pi =>
    (evs0 ++ [Event.extractState cw.1 0, Event.writePoolInfoFile [pi], Event.persist [pi]],
      some (cw.1, [pi], []))

/-- The `while True:` polling loop, consuming one observed latest block
height per tick. -/
def runLoop (env : Env) (fuel lookbackLimit : Nat) :
    Nat × List PoolInfo × List TransactionRecord → List Nat →
    List Event × Option (Nat × List PoolInfo × List TransactionRecord)
  | st, [] => ([], some st)
  | st, l :: rest =>
    match tick env fuel lookbackLimit st l with
    | (evs, none) => (evs, none)
    | (evs, some st2) =>
      let r := runLoop env fuel lookbackLimit st2 rest
      (evs ++ r.1, r.2)

/-- The whole of `main` (initialization followed by the polling loop) as a
function of the oracles and of the observed chain heights. -/
def runAcquire (env : Env) (fuel startBlock latest0 lookbackLimit : Nat)
    (latests : List Nat) : List Event × Outcome :=
  match initAcquire env startBlock latest0 lookbackLimit with
  | (evs, none) => (evs, Outcome.raisedValueError)
  | (evs, some st) =>
    match runLoop env fuel lookbackLimit st latests with
    | (evs2, none) => (evs ++ evs2, Outcome.outOfFuel)
    | (evs2, some st2) => (evs ++ evs2, Outcome.ok st2.1 st2.2.1 st2.2.2)

/-- The sequence of block numbers of records handed to
`postgres.add_pool_infos` along a trace, in call order. -/
def persistedBlocks (evs : List Event) : List Nat :=
  (evs.filterMap fun e =>
    match e with
    | Event.persist recs => some (recs.map PoolInfo.blockNumber)
    | _ => none).flatten

/-- Whether an event is a write to one of the output files. -/
def isFileWrite : Event → Bool
  | Event.writeConfigFile => true
  | Event.writePoolInfoFile _ => true
  | Event.writeTxFile _ => true
  | _ => false

/-- Extractor that always succeeds with a truthy record carrying the
queried block number. -/
def env1 : Env :=
  { stateOracle := fun b _ => some ⟨b, true⟩, txOracle := fun _ => [] }

/-- Extractor that always raises `ValueError`. -/
def env0 : Env :=
  { stateOracle := fun _ _ => none, txOracle := fun _ => [] }

/-- Extractor that raises `ValueError` exactly twice per block, then
succeeds with a truthy record. -/
def env2 : Env :=
  { stateOracle := fun b k => if k < 2 then none else some ⟨b, true⟩,
    txOracle := fun _ => [] }

/-- Extractor that always succeeds but returns a falsy record. -/
def env3 : Env :=
  { stateOracle := fun b _ => some ⟨b, false⟩, txOracle := fun _ => [] }

/-! ### Shared lemmas -/

/-- Every event of the retry loop is an extractor call for the same block,
the retry warning, or the backoff sleep. -/
lemma retryEvents_shape (env : Env) (b : Nat) :
    ∀ fuel a e, e ∈ retryEvents env b fuel a →
      (∃ k, e = Event.extractState b k) ∨ e = Event.retryWarn b ∨ e = Event.sleepBackoff := by
  intro fuel
  induction fuel with
  | zero => intro a e h; simp [retryEvents] at h
  | succ n ih =>
    intro a e h
    cases hm : env.stateOracle b a with
    | some pi =>
      simp only [retryEvents, hm, List.mem_cons, List.not_mem_nil, or_false] at h
      exact Or.inl ⟨a, h⟩
    | none =>
      simp only [retryEvents, hm, List.mem_cons] at h
      rcases h with h | h | h | h
      · exact Or.inl ⟨a, h⟩
      · exact Or.inr (Or.inl h)
      · exact Or.inr (Or.inr h)
      · exact ih (a + 1) e h

/-- With at least one unit of fuel, the retry loop's trace starts with the
attempt-`a` extractor call. -/
lemma retryEvents_head (env : Env) (b f a : Nat) :
    Event.extractState b a ∈ retryEvents env b (f + 1) a := by
  rw [retryEvents]
  exact List.mem_cons_self _ _

/-- The clamp over Python integers agrees with the natural-number clamp
used by the run model. -/
lemma clampStartI_agrees (s l k : Nat) :
    clampStartI s l k = (((clampStart s l k).1 : Int), (clampStart s l k).2) := by
  unfold clampStartI clampStart
  by_cases h : (l : Int) - s > k
  · rw [if_pos h, if_pos (by omega)]
    simp only [Prod.mk.injEq]
    exact ⟨by omega, trivial⟩
  · rw [if_neg h, if_neg (by omega)]

/-- When the clamp fires, initialization logs the warning of line 55. -/
lemma initAcquire_clampWarn (env : Env) (s l0 k : Nat) (h : l0 - s > k) :
    Event.clampWarn (l0 - k) ∈ (initAcquire env s l0 k).1 := by
  unfold initAcquire clampStart
  rw [if_pos h]
  cases hm : env.stateOracle (l0 - k) 0 <;> simp [hm]

/-! ### C8 — no-work tick -/

/-- C8 (confirmed): on a tick whose observed latest block number is at most
the cursor, the loop does nothing but sleep: no extractor calls, no
persistence, no file writes, and the cursor and both buffers are unchanged
(lines 77 and 119: the whole work block is guarded by
`if latest_block_number > block_number`). -/
theorem c8_no_work_tick (env : Env) (fuel lookbackLimit : Nat)
    (st : Nat × List PoolInfo × List TransactionRecord) (latest : Nat)
    (h : latest ≤ st.1) :
    tick env fuel lookbackLimit st latest = ([Event.sleepPoll], some st) := by
  unfold tick
  rw [if_neg (by omega)]

/-- Witness for C8 at a concrete no-work tick. -/
theorem c8_witness :
    tick env1 1 100 (7, [], []) 7 = ([Event.sleepPoll], some (7, [], [])) :=
  c8_no_work_tick env1 1 100 (7, [], []) 7 (by decide)

/-! ### C5 — lookback clamp at startup -/

/-- C5 (confirmed): whenever the requested start block (a block number,
hence non-negative) is more than `lookback_block_limit` behind the latest
block, lines 53-55 set the effective starting cursor to
`max(latest - lookback_block_limit, 0)` and log the clamp warning
(the returned flag). -/
theorem c5_lookback_clamp (s l k : Int) (h0 : 0 ≤ s) (h : l - s > k) :
    clampStartI s l k = (max (l - k) 0, true) := by
  unfold clampStartI
  rw [if_pos h, max_eq_left (by omega)]

/-- Witness for C5: latest 5000, lookback 1000, requested start 1 gives
effective cursor 4000 with the warning. -/
theorem c5_witness : clampStartI 1 5000 1000 = (max (5000 - 1000 : Int) 0, true) :=
  c5_lookback_clamp 1 5000 1000 (by decide) (by decide)

/-! ### C1 — cursor advancement is speculative, not post-completion -/

/-- C1 (refuted): in a concrete tick processing block 3, the cursor
assignment to 3 (line 80) occurs strictly before the extractor call, the
persistence upsert and the transaction extraction for block 3 — so the
cursor is NOT advanced only after steps 2-4 complete. -/
theorem c1_counterexample :
    Event.cursorSet 3 ∈ (tick env1 1 100 (2, [], []) 3).1 ∧
    Event.persist [⟨3, true⟩] ∈ (tick env1 1 100 (2, [], []) 3).1 ∧
    (tick env1 1 100 (2, [], []) 3).1.indexOf (Event.cursorSet 3) <
      (tick env1 1 100 (2, [], []) 3).1.indexOf (Event.extractState 3 0) ∧
    (tick env1 1 100 (2, [], []) 3).1.indexOf (Event.cursorSet 3) <
      (tick env1 1 100 (2, [], []) 3).1.indexOf (Event.persist [⟨3, true⟩]) ∧
    (tick env1 1 100 (2, [], []) 3).1.indexOf (Event.cursorSet 3) <
      (tick env1 1 100 (2, [], []) 3).1.indexOf (Event.extractTx 3) := by
  decide

/-- C1 (amended, proved): cursor advancement IS speculative — for every
block `b` the loop body's very first action is to set the cursor to `b`
(line 80), before extraction, persistence and transaction fetch; the cursor
is not touched again during `b`'s processing (in particular the
`ValueError` retry re-queries the same block `b`). -/
theorem c1_amended (env : Env) (fuel latest lookbackLimit b : Nat) :
    (blockEvents env fuel latest lookbackLimit b).take 2 =
      [Event.cursorSet b, Event.infoLog b] ∧
    Event.cursorSet b ∉ (blockEvents env fuel latest lookbackLimit b).drop 2 := by
  constructor
  · rfl
  · show Event.cursorSet b ∉
      (if latest - b > lookbackLimit then [Event.skipWarn b]
       else retryEvents env b fuel 0 ++
         match retryResult env b fuel 0 with
         | none => []
         | some pi => (if pi.truthy then [Event.persist [pi]] else []) ++ [Event.extractTx b])
    by_cases hskip : latest - b > lookbackLimit
    · simp [hskip]
    · rw [if_neg hskip]
      intro hmem
      rcases List.mem_append.mp hmem with hre | hrest
      · rcases retryEvents_shape env b fuel 0 _ hre with ⟨k, hk⟩ | hk | hk <;> simp at hk
      · cases hr : retryResult env b fuel 0 with
        | none => rw [hr] at hrest; simp at hrest
        | some pi =>
          rw [hr] at hrest
          by_cases ht : pi.truthy <;> simp [ht] at hrest

/-- Witness for C1's amended statement at a concrete block. -/
theorem c1_witness :
    (blockEvents env1 1 5 100 3).take 2 = [Event.cursorSet 3, Event.infoLog 3] ∧
    Event.cursorSet 3 ∉ (blockEvents env1 1 5 100 3).drop 2 :=
  c1_amended env1 1 5 100 3

/-! ### C3 — ValueError containment -/

/-- C3 (refuted): with an extractor that raises `ValueError` on the very
first fetch during initialization (line 60, outside any retry), the error
propagates out of the loop — the run's outcome is the uncaught exception,
and the trace stops at that first extractor call. -/
theorem c3_counterexample :
    runAcquire env0 5 5 5 100 [] =
      ([Event.writeConfigFile, Event.extractState 5 0], Outcome.raisedValueError) := by
  decide

/-- C3 (amended, proved): a `ValueError` escapes the acquisition process
exactly when the single unguarded initialization fetch (line 60) raises;
inside the streaming loop the block-scoped retry (lines 94-103) recovers
every `ValueError` locally, so no later tick can produce the exception
outcome. -/
theorem c3_amended (env : Env) (fuel startBlock latest0 lookbackLimit : Nat)
    (latests : List Nat) :
    (runAcquire env fuel startBlock latest0 lookbackLimit latests).2 =
        Outcome.raisedValueError ↔
      env.stateOracle (clampStart startBlock latest0 lookbackLimit).1 0 = none := by
  unfold runAcquire initAcquire
  cases hm : env.stateOracle (clampStart startBlock latest0 lookbackLimit).1 0 with
  | none => simp [hm]
  | some pi =>
    simp only [hm]
    cases hr : runLoop env fuel lookbackLimit
        ((clampStart startBlock latest0 lookbackLimit).1, [pi], []) latests with
    | mk evs2 r =>
      cases r <;> simp [hm]

/-- Witness for C3's amended statement at a concrete configuration. -/
theorem c3_witness :
    ((runAcquire env0 3 0 10 100 [11]).2 = Outcome.raisedValueError ↔
      env0.stateOracle (clampStart 0 10 100).1 0 = none) :=
  c3_amended env0 3 0 10 100 [11]

/-! ### C9 — silent gap on falsy extractor result -/

/-- C9 (confirmed): if the extractor succeeds for block `b` but returns a
falsy `PoolInfo`, the `if block_pool_info:` guard (line 105) silently drops
it: no persistence call, no pool-buffer append, no warning — only the info
log, the extractor calls and the snapshot writes occur — and the tick still
completes with the cursor advanced to `b`. Stated for a tick whose only
new block is `b`. -/
theorem c9_falsy_gap (env : Env) (fuel lookbackLimit b : Nat) (pi : PoolInfo)
    (pbuf : List PoolInfo) (tbuf : List TransactionRecord)
    (hb : 1 ≤ b) (hf : 0 < fuel)
    (hsome : env.stateOracle b 0 = some pi) (hfalsy : pi.truthy = false) :
    tick env fuel lookbackLimit (b - 1, pbuf, tbuf) b =
      ([Event.cursorSet b, Event.infoLog b, Event.extractState b 0, Event.extractTx b,
        Event.writePoolInfoFile pbuf,
        Event.writeTxFile (if env.txOracle b = [] then tbuf else tbuf ++ env.txOracle b),
        Event.sleepPoll],
        some (b, pbuf, if env.txOracle b = [] then tbuf else tbuf ++ env.txOracle b)) := by
  obtain ⟨c, rfl⟩ : ∃ c, b = c + 1 := ⟨b - 1, by omega⟩
  obtain ⟨f, rfl⟩ : ∃ f, fuel = f + 1 := ⟨fuel - 1, by omega⟩
  simp only [Nat.add_sub_cancel]
  unfold tick
  rw [if_pos (by omega)]
  have htb : tickBlocks c (c + 1) = [c + 1] := by
    unfold tickBlocks
    rw [show c + 1 - c = 1 by omega, List.range'_one]
  rw [htb]
  simp only [processBlocks, blockUpdate, blockEvents, retryEvents, retryResult, hsome, hfalsy,
    Nat.sub_self, gt_iff_lt, Nat.not_lt_zero, if_false, Bool.false_eq_true, List.append_nil,
    List.nil_append, List.cons_append]

/-- Witness for C9 at a concrete falsy extraction. -/
theorem c9_witness :
    tick env3 1 100 (4, [], []) 5 =
      ([Event.cursorSet 5, Event.infoLog 5, Event.extractState 5 0, Event.extractTx 5,
        Event.writePoolInfoFile [], Event.writeTxFile [], Event.sleepPoll],
        some (5, [], [])) := by
  have h := c9_falsy_gap env3 1 100 5 ⟨5, false⟩ [] [] (by decide) (by decide) rfl rfl
  simpa [env3] using h

/-! ### C2 — skip-on-fall-behind boundary -/

/-- C2 (refuted): in the claim's scenario (cursor 10, latest 2000, lookback
1000) block 1000 satisfies `latest - b > lookback` as `1000 > 1000`, which
is false, so block 1000 is iterated, NOT skipped: its trace has the
extractor call and no skip warning — contradicting the claim that blocks
11..1000 are skipped. -/
theorem c2_counterexample :
    (1000 : Nat) ∈ tickBlocks 10 2000 ∧
    Event.skipWarn 1000 ∉ blockEvents env1 1 2000 1000 1000 ∧
    Event.extractState 1000 0 ∈ blockEvents env1 1 2000 1000 1000 := by
  refine ⟨?_, by decide, by decide⟩
  rw [tickBlocks, List.mem_range'_1]
  omega

/-- C2 (amended, proved): with cursor 10, latest 2000 and lookback 1000,
every block 11..2000 is iterated; blocks 11..999 are skipped with the
warning of lines 85-89 (skip condition `latest - b > lookback`), and blocks
1000..2000 reach the extractor. -/
theorem c2_amended (env : Env) (fuel b : Nat) (hf : 0 < fuel)
    (h1 : 11 ≤ b) (h2 : b ≤ 2000) :
    b ∈ tickBlocks 10 2000 ∧
    (Event.skipWarn b ∈ blockEvents env fuel 2000 1000 b ↔ b ≤ 999) ∧
    (Event.extractState b 0 ∈ blockEvents env fuel 2000 1000 b ↔ 1000 ≤ b) := by
  refine ⟨by rw [tickBlocks, List.mem_range'_1]; omega, ?_, ?_⟩
  · by_cases hb : b ≤ 999
    · rw [blockEvents, if_pos (by omega)]
      simp [hb]
    · rw [blockEvents, if_neg (by omega)]
      simp only [hb, iff_false, List.mem_cons]
      intro hmem
      rcases hmem with h | h | h
      · exact absurd h (by simp)
      · exact absurd h (by simp)
      · rcases List.mem_append.mp h with hre | hrest
        · rcases retryEvents_shape env b fuel 0 _ hre with ⟨k, hk⟩ | hk | hk <;> simp at hk
        · cases hr : retryResult env b fuel 0 with
          | none => rw [hr] at hrest; simp at hrest
          | some pi =>
            rw [hr] at hrest
            by_cases ht : pi.truthy <;> simp [ht] at hrest
  · by_cases hb : 1000 ≤ b
    · rw [blockEvents, if_neg (by omega)]
      simp only [hb, iff_true, List.mem_cons]
      refine Or.inr (Or.inr (List.mem_append.mpr (Or.inl ?_)))
      obtain ⟨f, rfl⟩ : ∃ f, fuel = f + 1 := ⟨fuel - 1, by omega⟩
      exact retryEvents_head env b f 0
    · rw [blockEvents, if_pos (by omega)]
      simp [hb]

/-- Witness for C2's amended statement at the boundary block 1000. -/
theorem c2_witness :
    (1000 : Nat) ∈ tickBlocks 10 2000 ∧
    (Event.skipWarn 1000 ∈ blockEvents env1 1 2000 1000 1000 ↔ (1000 : Nat) ≤ 999) ∧
    (Event.extractState 1000 0 ∈ blockEvents env1 1 2000 1000 1000 ↔ (1000 : Nat) ≤ 1000) :=
  c2_amended env1 1 1000 (by decide) (by decide) (by decide)

/-! ### C4 — transient retry convergence -/

/-- If the extractor fails on attempts `a..a+m-1` and succeeds on attempt
`a+m`, the retry loop (given enough fuel) returns that success. -/
lemma retryResult_succeeds (env : Env) (b : Nat) (pi : PoolInfo) :
    ∀ m fuel a, (∀ j, j < m → env.stateOracle b (a + j) = none) →
      env.stateOracle b (a + m) = some pi → m < fuel →
      retryResult env b fuel a = some pi := by
  intro m
  induction m with
  | zero =>
    intro fuel a hfail hsucc hfuel
    obtain ⟨f, rfl⟩ : ∃ f, fuel = f + 1 := ⟨fuel - 1, by omega⟩
    rw [retryResult]
    rw [Nat.add_zero] at hsucc
    rw [hsucc]
  | succ n ih =>
    intro fuel a hfail hsucc hfuel
    obtain ⟨f, rfl⟩ : ∃ f, fuel = f + 1 := ⟨fuel - 1, by omega⟩
    rw [retryResult]
    have h0 : env.stateOracle b a = none := by
      have := hfail 0 (by omega)
      rwa [Nat.add_zero] at this
    rw [h0]
    refine ih f (a + 1) (fun j hj => ?_) ?_ (by omega)
    · have := hfail (j + 1) (by omega)
      rwa [show a + (j + 1) = a + 1 + j by omega] at this
    · rwa [show a + 1 + n = a + (n + 1) by omega]

/-- Trace of the retry loop when the extractor fails on attempts
`a..a+m-1` and succeeds on attempt `a+m`: one warning and one backoff sleep
per failure, and exactly the extractor calls for attempts `a..a+m`, all on
the same block. -/
lemma retryEvents_succeeds (env : Env) (b : Nat) (pi : PoolInfo) :
    ∀ m fuel a, (∀ j, j < m → env.stateOracle b (a + j) = none) →
      env.stateOracle b (a + m) = some pi → m < fuel →
      (retryEvents env b fuel a).count (Event.retryWarn b) = m ∧
      (retryEvents env b fuel a).count Event.sleepBackoff = m ∧
      (∀ k, Event.extractState b k ∈ retryEvents env b fuel a ↔ (a ≤ k ∧ k ≤ a + m)) := by
  intro m
  induction m with
  | zero =>
    intro fuel a hfail hsucc hfuel
    obtain ⟨f, rfl⟩ : ∃ f, fuel = f + 1 := ⟨fuel - 1, by omega⟩
    rw [Nat.add_zero] at hsucc
    rw [retryEvents, hsucc]
    refine ⟨by simp, by simp, fun k => ?_⟩
    simp only [List.mem_cons, List.not_mem_nil, or_false, Event.extractState.injEq,
      true_and]
    omega
  | succ n ih =>
    intro fuel a hfail hsucc hfuel
    obtain ⟨f, rfl⟩ : ∃ f, fuel = f + 1 := ⟨fuel - 1, by omega⟩
    have h0 : env.stateOracle b a = none := by
      have := hfail 0 (by omega)
      rwa [Nat.add_zero] at this
    rw [retryEvents, h0]
    obtain ⟨ihw, ihs, ihm⟩ := ih f (a + 1)
      (fun j hj => by
        have := hfail (j + 1) (by omega)
        rwa [show a + (j + 1) = a + 1 + j by omega] at this)
      (by rwa [show a + 1 + n = a + (n + 1) by omega]) (by omega)
    refine ⟨?_, ?_, fun k => ?_⟩
    · simp [List.count_cons, ihw]
    · simp [List.count_cons, ihs]
    · simp only [List.mem_cons, Event.extractState.injEq, true_and, ihm]
      constructor
      · rintro (h | h | h | h)
        · omega
        · exact absurd h (by simp)
        · exact absurd h (by simp)
        · omega
      · intro h
        by_cases hk : k = a
        · exact Or.inl hk
        · exact Or.inr (Or.inr (Or.inr (by omega)))

/-- C4 (confirmed): inside the streaming loop, a block `b` within the
lookback window whose extractor raises `ValueError` on the first `m`
attempts and then succeeds with a (truthy) record is retried on the same
block with one warning and one 0.1s backoff per failure (lines 94-103),
and contributes exactly one record — one `add_pool_infos` call and one
buffer append (lines 105-107). -/
theorem c4_transient_retry (env : Env) (fuel latest lookbackLimit b m : Nat)
    (pi : PoolInfo) (pbuf : List PoolInfo) (tbuf : List TransactionRecord)
    (hfail : ∀ j, j < m → env.stateOracle b j = none)
    (hsucc : env.stateOracle b m = some pi)
    (htruthy : pi.truthy = true)
    (hfuel : m < fuel)
    (hwin : ¬ latest - b > lookbackLimit) :
    (blockEvents env fuel latest lookbackLimit b).count (Event.retryWarn b) = m ∧
    (blockEvents env fuel latest lookbackLimit b).count Event.sleepBackoff = m ∧
    (∀ k, Event.extractState b k ∈ blockEvents env fuel latest lookbackLimit b ↔ k ≤ m) ∧
    (blockEvents env fuel latest lookbackLimit b).count (Event.persist [pi]) = 1 ∧
    blockUpdate env fuel latest lookbackLimit b (pbuf, tbuf) =
      some (pbuf ++ [pi],
        if env.txOracle b = [] then tbuf else tbuf ++ env.txOracle b) := by
  have hres : retryResult env b fuel 0 = some pi :=
    retryResult_succeeds env b pi m fuel 0
      (fun j hj => by simpa using hfail j hj) (by simpa using hsucc) hfuel
  obtain ⟨hw, hs, hm⟩ := retryEvents_succeeds env b pi m fuel 0
    (fun j hj => by simpa using hfail j hj) (by simpa using hsucc) hfuel
  rw [blockEvents, if_neg hwin, hres]
  rw [blockUpdate, if_neg hwin, hres]
  refine ⟨?_, ?_, fun k => ?_, ?_, ?_⟩
  · simp [List.count_cons, List.count_append, hw, htruthy]
  · simp [List.count_cons, List.count_append, hs, htruthy]
  · simp only [List.mem_cons, List.mem_append, hm k, htruthy, if_true]
    constructor
    · rintro (h | h | h | h)
      · exact absurd h (by simp)
      · exact absurd h (by simp)
      · omega
      · simp at h
    · intro h
      exact Or.inr (Or.inr (Or.inl (by omega)))
  · have hnr : (retryEvents env b fuel 0).count (Event.persist [pi]) = 0 := by
      rw [List.count_eq_zero]
      intro hmem
      rcases retryEvents_shape env b fuel 0 _ hmem with ⟨k, hk⟩ | hk | hk <;> simp at hk
    simp [List.count_cons, List.count_append, hnr, htruthy]
  · simp [htruthy]

/-- Witness for C4: an extractor failing exactly twice for block 7 and then
succeeding yields two retry warnings, two backoffs, one persisted record and
one buffer append. -/
theorem c4_witness :
    (blockEvents env2 5 10 100 7).count (Event.retryWarn 7) = 2 ∧
    (blockEvents env2 5 10 100 7).count Event.sleepBackoff = 2 ∧
    (blockEvents env2 5 10 100 7).count (Event.persist [⟨7, true⟩]) = 1 ∧
    blockUpdate env2 5 10 100 7 ([], []) = some ([⟨7, true⟩], []) := by
  obtain ⟨h1, h2, h3, h4, h5⟩ := c4_transient_retry env2 5 10 100 7 2 ⟨7, true⟩ [] []
    (by decide) (by decide) rfl (by decide) (by decide)
  exact ⟨h1, h2, h4, by simpa [env2] using h5⟩

/-! ### C6 — strictly increasing persistence order -/

/-- The extractor contract of the spec's data model: a returned `PoolInfo`
carries the queried block number. -/
def returnsQueriedBlock (env : Env) : Prop :=
  ∀ b k pi, env.stateOracle b k = some pi → pi.blockNumber = b

lemma persistedBlocks_nil : persistedBlocks [] = [] := rfl

lemma persistedBlocks_append (l1 l2 : List Event) :
    persistedBlocks (l1 ++ l2) = persistedBlocks l1 ++ persistedBlocks l2 := by
  simp [persistedBlocks]

lemma persistedBlocks_cons (e : Event) (evs : List Event) :
    persistedBlocks (e :: evs) =
      (match e with
        | Event.persist recs => recs.map PoolInfo.blockNumber
        | _ => []) ++ persistedBlocks evs := by
  cases e <;> simp [persistedBlocks]

lemma persistedBlocks_retryEvents (env : Env) (b : Nat) :
    ∀ fuel a, persistedBlocks (retryEvents env b fuel a) = [] := by
  intro fuel
  induction fuel with
  | zero => intro a; rfl
  | succ n ih =>
    intro a
    rw [retryEvents]
    cases env.stateOracle b a <;>
      simp [persistedBlocks_cons, persistedBlocks_nil, ih]

/-- A successful retry result comes from some successful oracle call on the
same block. -/
lemma retryResult_mem (env : Env) (b : Nat) :
    ∀ fuel a pi, retryResult env b fuel a = some pi →
      ∃ k, env.stateOracle b k = some pi := by
  intro fuel
  induction fuel with
  | zero => intro a pi h; simp [retryResult] at h
  | succ n ih =>
    intro a pi h
    rw [retryResult] at h
    cases hm : env.stateOracle b a with
    | some q =>
      rw [hm] at h
      exact ⟨a, hm.trans h⟩
    | none =>
      rw [hm] at h
      exact ih (a + 1) pi h

/-- The persistence calls of one block's loop body carry exactly the
records that block adds to the pool buffer. -/
lemma persistedBlocks_blockEvents_eq (env : Env) (fuel latest lookbackLimit b : Nat) :
    persistedBlocks (blockEvents env fuel latest lookbackLimit b) =
      (blockNewPool env fuel latest lookbackLimit b).map PoolInfo.blockNumber := by
  rw [blockEvents, blockNewPool]
  by_cases hskip : latest - b > lookbackLimit
  · rw [if_pos hskip, if_pos hskip]
    simp [persistedBlocks_cons, persistedBlocks_nil]
  · rw [if_neg hskip, if_neg hskip]
    simp only [persistedBlocks_cons, List.nil_append, persistedBlocks_append,
      persistedBlocks_retryEvents]
    cases hr : retryResult env b fuel 0 with
    | none => simp [persistedBlocks_nil]
    | some pi =>
      by_cases ht : pi.truthy <;>
        simp [ht, persistedBlocks_cons, persistedBlocks_append, persistedBlocks_nil]

/-- Per block, the persisted block numbers form a sublist of `[b]` (empty,
or exactly `[b]`). -/
lemma persistedBlocks_blockEvents_sublist (env : Env) (fuel latest lookbackLimit b : Nat)
    (hbn : returnsQueriedBlock env) :
    List.Sublist (persistedBlocks (blockEvents env fuel latest lookbackLimit b)) [b] := by
  rw [persistedBlocks_blockEvents_eq, blockNewPool]
  by_cases hskip : latest - b > lookbackLimit
  · rw [if_pos hskip]
    exact List.nil_sublist _
  · rw [if_neg hskip]
    cases hr : retryResult env b fuel 0 with
    | none => exact List.nil_sublist _
    | some pi =>
      dsimp only
      by_cases ht : pi.truthy
      · rw [if_pos ht]
        obtain ⟨k, hk⟩ := retryResult_mem env b fuel 0 pi hr
        simp only [List.map_cons, List.map_nil, hbn b k pi hk]
        exact List.Sublist.refl _
      · rw [if_neg ht]
        exact List.nil_sublist _

lemma persistedBlocks_processBlocks (env : Env) (fuel latest lookbackLimit : Nat)
    (hbn : returnsQueriedBlock env) :
    ∀ bs bufs,
      List.Sublist
        (persistedBlocks (processBlocks env fuel latest lookbackLimit bs bufs).1) bs := by
  intro bs
  induction bs with
  | nil => intro bufs; exact List.nil_sublist _
  | cons b rest ih =>
    intro bufs
    rw [processBlocks]
    cases hu : blockUpdate env fuel latest lookbackLimit b bufs with
    | none =>
      dsimp only
      exact (persistedBlocks_blockEvents_sublist env fuel latest lookbackLimit b hbn).trans
        ((List.nil_sublist rest).cons₂ b)
    | some bufs2 =>
      dsimp only
      rw [persistedBlocks_append]
      exact (persistedBlocks_blockEvents_sublist env fuel latest lookbackLimit b hbn).append
        (ih bufs2)

lemma mem_tickBlocks (c latest x : Nat) :
    x ∈ tickBlocks c latest ↔ c < x ∧ x ≤ latest := by
  rw [tickBlocks, List.mem_range'_1]
  omega

lemma pairwise_tickBlocks (c latest : Nat) :
    (tickBlocks c latest).Pairwise (· < ·) := by
  rw [tickBlocks]
  exact List.pairwise_lt_range' _ _

/-- Per tick: the persisted block numbers are strictly increasing, all
above the incoming cursor, and bounded by the outgoing cursor. -/
lemma tick_persisted (env : Env) (fuel lookbackLimit : Nat)
    (st : Nat × List PoolInfo × List TransactionRecord) (latest : Nat)
    (evs : List Event) (r : Option (Nat × List PoolInfo × List TransactionRecord))
    (hbn : returnsQueriedBlock env)
    (h : tick env fuel lookbackLimit st latest = (evs, r)) :
    (persistedBlocks evs).Pairwise (· < ·) ∧
    (∀ x ∈ persistedBlocks evs, st.1 < x) ∧
    (∀ st2, r = some st2 → st.1 ≤ st2.1 ∧ ∀ x ∈ persistedBlocks evs, x ≤ st2.1) := by
  rw [tick] at h
  by_cases hc : st.1 < latest
  · rw [if_pos hc] at h
    cases hp : processBlocks env fuel latest lookbackLimit
        (tickBlocks st.1 latest) (st.2.1, st.2.2) with
    | mk pevs pr =>
      rw [hp] at h
      have hsub : List.Sublist (persistedBlocks pevs) (tickBlocks st.1 latest) := by
        have := persistedBlocks_processBlocks env fuel latest lookbackLimit hbn
          (tickBlocks st.1 latest) (st.2.1, st.2.2)
        rwa [hp] at this
      cases pr with
      | none =>
        dsimp only at h
        rw [Prod.mk.injEq] at h
        obtain ⟨rfl, rfl⟩ := h
        refine ⟨List.Pairwise.sublist hsub (pairwise_tickBlocks _ _), fun x hx => ?_, fun st2 h2 => ?_⟩
        · exact ((mem_tickBlocks _ _ _).mp (hsub.subset hx)).1
        · exact absurd h2 (by simp)
      | some bufs2 =>
        obtain ⟨p2, t2⟩ := bufs2
        dsimp only at h
        rw [Prod.mk.injEq] at h
        obtain ⟨rfl, rfl⟩ := h
        rw [persistedBlocks_append]
        have hzero : persistedBlocks
            [Event.writePoolInfoFile p2, Event.writeTxFile t2, Event.sleepPoll] = [] := by
          simp [persistedBlocks_cons, persistedBlocks_nil]
        rw [hzero, List.append_nil]
        refine ⟨List.Pairwise.sublist hsub (pairwise_tickBlocks _ _), fun x hx => ?_, fun st2 h2 => ?_⟩
        · exact ((mem_tickBlocks _ _ _).mp (hsub.subset hx)).1
        · rw [Option.some.injEq] at h2
          subst h2
          exact ⟨by omega, fun x hx => ((mem_tickBlocks _ _ _).mp (hsub.subset hx)).2⟩
  · rw [if_neg hc] at h
    rw [Prod.mk.injEq] at h
    obtain ⟨rfl, rfl⟩ := h
    have hnil : persistedBlocks [Event.sleepPoll] = [] := by
      simp [persistedBlocks_cons, persistedBlocks_nil]
    rw [hnil]
    refine ⟨List.Pairwise.nil, by simp, fun st2 h2 => ?_⟩
    rw [Option.some.injEq] at h2
    subst h2
    exact ⟨Nat.le_refl _, by simp⟩

/-- Across ticks: all persisted block numbers stay strictly increasing and
above the starting cursor, bounded by the final cursor. -/
lemma runLoop_persisted (env : Env) (fuel lookbackLimit : Nat)
    (hbn : returnsQueriedBlock env) :
    ∀ (latests : List Nat) (st : Nat × List PoolInfo × List TransactionRecord)
      (evs : List Event) (r : Option (Nat × List PoolInfo × List TransactionRecord)),
      runLoop env fuel lookbackLimit st latests = (evs, r) →
      (persistedBlocks evs).Pairwise (· < ·) ∧
      (∀ x ∈ persistedBlocks evs, st.1 < x) ∧
      (∀ st2, r = some st2 → st.1 ≤ st2.1 ∧ ∀ x ∈ persistedBlocks evs, x ≤ st2.1) := by
  intro latests
  induction latests with
  | nil =>
    intro st evs r h
    rw [runLoop, Prod.mk.injEq] at h
    obtain ⟨rfl, rfl⟩ := h
    refine ⟨List.Pairwise.nil, by simp [persistedBlocks_nil], fun st2 h2 => ?_⟩
    rw [Option.some.injEq] at h2
    subst h2
    exact ⟨Nat.le_refl _, by simp [persistedBlocks_nil]⟩
  | cons l rest ih =>
    intro st evs r h
    rw [runLoop] at h
    cases ht : tick env fuel lookbackLimit st l with
    | mk evs1 r1 =>
      rw [ht] at h
      obtain ⟨T1, T2, T3⟩ := tick_persisted env fuel lookbackLimit st l evs1 r1 hbn ht
      cases r1 with
      | none =>
        dsimp only at h
        rw [Prod.mk.injEq] at h
        obtain ⟨rfl, rfl⟩ := h
        exact ⟨T1, T2, fun st2 h2 => absurd h2 (by simp)⟩
      | some st1 =>
        dsimp only at h
        cases hrl : runLoop env fuel lookbackLimit st1 rest with
        | mk evs2 r2 =>
          rw [hrl] at h
          dsimp only at h
          rw [Prod.mk.injEq] at h
          obtain ⟨rfl, rfl⟩ := h
          obtain ⟨I1, I2, I3⟩ := ih st1 evs2 r2 hrl
          obtain ⟨hle1, hub1⟩ := T3 st1 rfl
          rw [persistedBlocks_append]
          refine ⟨List.pairwise_append.mpr ⟨T1, I1, fun x hx y hy =>
              Nat.lt_of_le_of_lt (hub1 x hx) (I2 y hy)⟩, fun x hx => ?_, fun st2 h2 => ?_⟩
          · rcases List.mem_append.mp hx with hx | hx
            · exact T2 x hx
            · exact Nat.lt_of_le_of_lt hle1 (I2 x hx)
          · obtain ⟨hle2, hub2⟩ := I3 st2 h2
            refine ⟨Nat.le_trans hle1 hle2, fun x hx => ?_⟩
            rcases List.mem_append.mp hx with hx | hx
            · exact Nat.le_trans (hub1 x hx) hle2
            · exact hub2 x hx

/-- C6 (confirmed): over any run — the initial write at startup followed by
any sequence of ticks — the block numbers of the records handed to
`postgres.add_pool_infos` form a strictly increasing sequence with no
duplicates: blocks are iterated in ascending order within a tick and the
cursor only moves forward across ticks. -/
theorem c6_ordering (env : Env) (fuel startBlock latest0 lookbackLimit : Nat)
    (latests : List Nat) (hbn : returnsQueriedBlock env) :
    (persistedBlocks
      (runAcquire env fuel startBlock latest0 lookbackLimit latests).1).Pairwise (· < ·) := by
  rw [runAcquire]
  cases hi : initAcquire env startBlock latest0 lookbackLimit with
  | mk evs0 r0 =>
    rw [initAcquire] at hi
    try dsimp only at hi
    cases hm : env.stateOracle (clampStart startBlock latest0 lookbackLimit).1 0 with
    | none =>
      rw [hm] at hi
      rw [Prod.mk.injEq] at hi
      obtain ⟨rfl, rfl⟩ := hi
      by_cases h2 : (clampStart startBlock latest0 lookbackLimit).2 <;>
        simp [h2, List.cons_append, persistedBlocks_cons, persistedBlocks_append,
          persistedBlocks_nil]
    | some pi =>
      rw [hm] at hi
      rw [Prod.mk.injEq] at hi
      obtain ⟨rfl, rfl⟩ := hi
      dsimp only
      cases hrl : runLoop env fuel lookbackLimit
          ((clampStart startBlock latest0 lookbackLimit).1, [pi], []) latests with
      | mk evs2 r2 =>
        obtain ⟨I1, I2, _⟩ := runLoop_persisted env fuel lookbackLimit hbn latests
          ((clampStart startBlock latest0 lookbackLimit).1, [pi], []) evs2 r2 hrl
        have hpi : persistedBlocks (Event.writeConfigFile ::
            (if (clampStart startBlock latest0 lookbackLimit).2 then
              [Event.clampWarn (clampStart startBlock latest0 lookbackLimit).1] else []) ++
            [Event.extractState (clampStart startBlock latest0 lookbackLimit).1 0,
              Event.writePoolInfoFile [pi], Event.persist [pi]]) =
            [pi.blockNumber] := by
          rw [List.cons_append, persistedBlocks_cons, persistedBlocks_append]
          by_cases h2 : (clampStart startBlock latest0 lookbackLimit).2 <;>
            simp [h2, persistedBlocks_cons, persistedBlocks_nil]
        have hglue : ∀ evsB, (∀ x ∈ persistedBlocks evsB,
            (clampStart startBlock latest0 lookbackLimit).1 < x) →
            (persistedBlocks evsB).Pairwise (· < ·) →
            (persistedBlocks (Event.writeConfigFile ::
              (if (clampStart startBlock latest0 lookbackLimit).2 then
                [Event.clampWarn (clampStart startBlock latest0 lookbackLimit).1] else []) ++
              [Event.extractState (clampStart startBlock latest0 lookbackLimit).1 0,
                Event.writePoolInfoFile [pi], Event.persist [pi]] ++ evsB)).Pairwise
                (· < ·) := by
          intro evsB hB hBp
          rw [persistedBlocks_append, hpi]
          refine List.pairwise_append.mpr ⟨by simp, hBp, fun x hx y hy => ?_⟩
          rw [List.mem_singleton] at hx
          subst hx
          rw [hbn _ _ _ hm]
          exact hB y hy
        cases r2 with
        | none => exact hglue evs2 I2 I1
        | some st2 => exact hglue evs2 I2 I1

/-- Witness for C6 on a concrete two-tick run. -/
theorem c6_witness :
    (persistedBlocks (runAcquire env1 3 0 0 100 [2, 4]).1).Pairwise (· < ·) :=
  c6_ordering env1 3 0 0 100 [2, 4]
    (fun b k pi h => by injection h with h2; rw [← h2])

/-! ### C7 — snapshot flush after each tick's batch -/

/-- A completed `blockUpdate` appends exactly the block's new records to
each buffer. -/
lemma blockUpdate_chars (env : Env) (fuel latest lookbackLimit b : Nat)
    (p p1 : List PoolInfo) (t t1 : List TransactionRecord)
    (h : blockUpdate env fuel latest lookbackLimit b (p, t) = some (p1, t1)) :
    p1 = p ++ blockNewPool env fuel latest lookbackLimit b ∧
    t1 = t ++ blockNewTx env fuel latest lookbackLimit b := by
  rw [blockUpdate] at h
  rw [blockNewPool, blockNewTx]
  by_cases hskip : latest - b > lookbackLimit
  · rw [if_pos hskip] at h
    rw [if_pos hskip, if_pos hskip]
    rw [Option.some.injEq, Prod.mk.injEq] at h
    obtain ⟨h1, h2⟩ := h
    simp [← h1, ← h2]
  · rw [if_neg hskip] at h
    rw [if_neg hskip, if_neg hskip]
    cases hr : retryResult env b fuel 0 with
    | none => rw [hr] at h; exact Option.noConfusion h
    | some pi =>
      rw [hr] at h
      dsimp only at h ⊢
      rw [Option.some.injEq, Prod.mk.injEq] at h
      obtain ⟨h1, h2⟩ := h
      constructor
      · by_cases ht : pi.truthy
        · rw [if_pos ht] at h1
          rw [if_pos ht]
          exact h1.symm
        · rw [if_neg ht] at h1
          rw [if_neg ht, List.append_nil]
          exact h1.symm
      · by_cases htx : env.txOracle b = []
        · rw [if_pos htx] at h2
          rw [htx, List.append_nil]
          exact h2.symm
        · rw [if_neg htx] at h2
          exact h2.symm

/-- A completed pass over the blocks of a tick appends exactly the
concatenation of the per-block contributions, in block order. -/
lemma processBlocks_bufs (env : Env) (fuel latest lookbackLimit : Nat) :
    ∀ (bs : List Nat) (p : List PoolInfo) (t : List TransactionRecord) evs p2 t2,
      processBlocks env fuel latest lookbackLimit bs (p, t) = (evs, some (p2, t2)) →
      p2 = p ++ (bs.map (blockNewPool env fuel latest lookbackLimit)).flatten ∧
      t2 = t ++ (bs.map (blockNewTx env fuel latest lookbackLimit)).flatten := by
  intro bs
  induction bs with
  | nil =>
    intro p t evs p2 t2 h
    rw [processBlocks, Prod.mk.injEq, Option.some.injEq, Prod.mk.injEq] at h
    obtain ⟨-, h1, h2⟩ := h
    simp [← h1, ← h2]
  | cons b rest ih =>
    intro p t evs p2 t2 h
    rw [processBlocks] at h
    cases hu : blockUpdate env fuel latest lookbackLimit b (p, t) with
    | none =>
      rw [hu] at h
      rw [Prod.mk.injEq] at h
      exact Option.noConfusion h.2
    | some bufs2 =>
      obtain ⟨p1, t1⟩ := bufs2
      rw [hu] at h
      dsimp only at h
      cases hp : processBlocks env fuel latest lookbackLimit rest (p1, t1) with
      | mk evs2 r2 =>
        rw [hp] at h
        rw [Prod.mk.injEq] at h
        obtain ⟨-, hr⟩ := h
        dsimp only at hr
        obtain ⟨hbp, hbt⟩ := blockUpdate_chars env fuel latest lookbackLimit b p p1 t t1 hu
        obtain ⟨h1, h2⟩ := ih p1 t1 evs2 p2 t2 (by rw [hp, hr])
        subst hbp hbt
        simp only [List.map_cons, List.flatten_cons, List.append_assoc] at h1 h2 ⊢
        exact ⟨h1, h2⟩

/-- The new pool records of a tick carry the block numbers of the blocks
that produced them, hence (as a sublist of the ascending block list) in
strictly ascending order. -/
lemma newPool_map_sublist (env : Env) (fuel latest lookbackLimit : Nat)
    (hbn : returnsQueriedBlock env) :
    ∀ bs : List Nat,
      List.Sublist
        (((bs.map (blockNewPool env fuel latest lookbackLimit)).flatten).map
          PoolInfo.blockNumber) bs := by
  intro bs
  induction bs with
  | nil => exact List.nil_sublist _
  | cons b rest ih =>
    simp only [List.map_cons, List.flatten_cons, List.map_append]
    have hhead : List.Sublist
        ((blockNewPool env fuel latest lookbackLimit b).map PoolInfo.blockNumber) [b] := by
      rw [blockNewPool]
      by_cases hskip : latest - b > lookbackLimit
      · rw [if_pos hskip]; exact List.nil_sublist _
      · rw [if_neg hskip]
        cases hr : retryResult env b fuel 0 with
        | none => exact List.nil_sublist _
        | some pi =>
          dsimp only
          by_cases ht : pi.truthy
          · rw [if_pos ht]
            obtain ⟨k, hk⟩ := retryResult_mem env b fuel 0 pi hr
            simp only [List.map_cons, List.map_nil, hbn b k pi hk]
            exact List.Sublist.refl _
          · rw [if_neg ht]; exact List.nil_sublist _
    exact hhead.append ih

/-- C7 (confirmed): after the batch of blocks in a tick completes, the loop
writes the full accumulated pool-info history and then the full accumulated
transaction history to their snapshot files (lines 113-118; mode `w`, an
overwrite — the event carries the whole buffer, not a delta); the pool
snapshot is ordered by block number, and the transaction snapshot is the
previous content extended by the newly discovered records in block
(discovery) order. -/
theorem c7_snapshot_flush (env : Env) (fuel lookbackLimit c latest : Nat)
    (p : List PoolInfo) (t : List TransactionRecord) (evs : List Event)
    (c2 : Nat) (p2 : List PoolInfo) (t2 : List TransactionRecord)
    (hc : c < latest)
    (h : tick env fuel lookbackLimit (c, p, t) latest = (evs, some (c2, p2, t2))) :
    List.IsSuffix [Event.writePoolInfoFile p2, Event.writeTxFile t2, Event.sleepPoll] evs ∧
    c2 = latest ∧
    p2 = p ++ ((tickBlocks c latest).map (blockNewPool env fuel latest lookbackLimit)).flatten ∧
    t2 = t ++ ((tickBlocks c latest).map (blockNewTx env fuel latest lookbackLimit)).flatten ∧
    (returnsQueriedBlock env →
      (p.map PoolInfo.blockNumber).Pairwise (· < ·) →
      (∀ x ∈ p, x.blockNumber ≤ c) →
      (p2.map PoolInfo.blockNumber).Pairwise (· < ·)) := by
  rw [tick] at h
  dsimp only at h
  rw [if_pos hc] at h
  cases hp : processBlocks env fuel latest lookbackLimit (tickBlocks c latest) (p, t) with
  | mk pevs pr =>
    rw [hp] at h
    cases pr with
    | none =>
      dsimp only at h
      rw [Prod.mk.injEq] at h
      exact Option.noConfusion h.2
    | some bufs2 =>
      obtain ⟨p3, t3⟩ := bufs2
      dsimp only at h
      simp only [Prod.mk.injEq, Option.some.injEq] at h
      obtain ⟨hevs, hc2, hp2, ht2⟩ := h
      subst hp2 ht2 hevs hc2
      obtain ⟨hbp, hbt⟩ := processBlocks_bufs env fuel latest lookbackLimit
        (tickBlocks c latest) p t pevs p3 t3 hp
      refine ⟨⟨pevs, rfl⟩, rfl, hbp, hbt, fun hbn hpw hbound => ?_⟩
      subst hbp
      rw [List.map_append]
      refine List.pairwise_append.mpr ⟨hpw,
        List.Pairwise.sublist
          (newPool_map_sublist env fuel latest lookbackLimit hbn (tickBlocks c latest))
          (pairwise_tickBlocks c latest), ?_⟩
      intro x hx y hy
      obtain ⟨rec, hrec, rfl⟩ := List.mem_map.mp hx
      have hyy : y ∈ tickBlocks c latest :=
        (newPool_map_sublist env fuel latest lookbackLimit hbn (tickBlocks c latest)).subset hy
      have h1 := ((mem_tickBlocks _ _ _).mp hyy).1
      have h2 := hbound rec hrec
      omega

/-- Witness for C7 on a concrete two-block tick. -/
theorem c7_witness :
    List.IsSuffix
      [Event.writePoolInfoFile [⟨1, true⟩, ⟨2, true⟩], Event.writeTxFile [], Event.sleepPoll]
      (tick env1 1 100 (0, [], []) 2).1 ∧
    (([⟨1, true⟩, ⟨2, true⟩] : List PoolInfo).map PoolInfo.blockNumber).Pairwise (· < ·) := by
  obtain ⟨h1, h2, h3, h4, h5⟩ := c7_snapshot_flush env1 1 100 0 2 [] []
    (tick env1 1 100 (0, [], []) 2).1 2 [⟨1, true⟩, ⟨2, true⟩] [] (by decide) (by decide)
  exact ⟨h1, h5 (fun b k pi h => by injection h with hq; rw [← hq]) (by simp) (by simp)⟩

/-! ### C10 — files touched during initialization -/

lemma blockEvents_no_fileWrite (env : Env) (fuel latest lookbackLimit b : Nat) :
    ∀ e ∈ blockEvents env fuel latest lookbackLimit b, isFileWrite e = false := by
  intro e he
  rw [blockEvents, List.mem_cons, List.mem_cons] at he
  rcases he with rfl | rfl | he
  · rfl
  · rfl
  · by_cases hskip : latest - b > lookbackLimit
    · rw [if_pos hskip] at he
      rw [List.mem_singleton] at he
      subst he
      rfl
    · rw [if_neg hskip] at he
      rcases List.mem_append.mp he with hre | hrest
      · rcases retryEvents_shape env b fuel 0 _ hre with ⟨k, hk⟩ | hk | hk <;>
          subst hk <;> rfl
      · cases hr : retryResult env b fuel 0 with
        | none => rw [hr] at hrest; simp at hrest
        | some pi =>
          rw [hr] at hrest
          dsimp only at hrest
          by_cases ht : pi.truthy
          · rw [if_pos ht] at hrest
            simp only [List.cons_append, List.nil_append, List.mem_cons,
              List.not_mem_nil, or_false] at hrest
            rcases hrest with rfl | rfl <;> rfl
          · rw [if_neg ht] at hrest
            rw [List.nil_append, List.mem_singleton] at hrest
            subst hrest
            rfl

lemma processBlocks_no_fileWrite (env : Env) (fuel latest lookbackLimit : Nat) :
    ∀ bs bufs e, e ∈ (processBlocks env fuel latest lookbackLimit bs bufs).1 →
      isFileWrite e = false := by
  intro bs
  induction bs with
  | nil => intro bufs e he; simp [processBlocks] at he
  | cons b rest ih =>
    intro bufs e he
    rw [processBlocks] at he
    cases hu : blockUpdate env fuel latest lookbackLimit b bufs with
    | none =>
      rw [hu] at he
      exact blockEvents_no_fileWrite env fuel latest lookbackLimit b e he
    | some bufs2 =>
      rw [hu] at he
      dsimp only at he
      rcases List.mem_append.mp he with he | he
      · exact blockEvents_no_fileWrite env fuel latest lookbackLimit b e he
      · exact ih bufs2 e he

/-- C10 (confirmed): during initialization only the pool-config file
(line 47) and the pool-info snapshot (line 64, with exactly the single
record fetched for the starting cursor) are written; a tick that observes
no new block writes no file, and the transaction-history snapshot first
comes into existence at the end of the first tick that observes at least
one new block (line 117), together with the pool-info rewrite that
precedes it. -/
theorem c10_init_files (env : Env) (fuel startBlock latest0 lookbackLimit : Nat)
    (pi : PoolInfo)
    (hsome : env.stateOracle (clampStart startBlock latest0 lookbackLimit).1 0 = some pi) :
    (initAcquire env startBlock latest0 lookbackLimit).2 =
      some ((clampStart startBlock latest0 lookbackLimit).1, [pi], []) ∧
    (initAcquire env startBlock latest0 lookbackLimit).1.filter isFileWrite =
      [Event.writeConfigFile, Event.writePoolInfoFile [pi]] ∧
    (∀ st latest, latest ≤ st.1 →
      (tick env fuel lookbackLimit st latest).1.filter isFileWrite = []) ∧
    (∀ st latest evs c2 p2 t2, st.1 < latest →
      tick env fuel lookbackLimit st latest = (evs, some (c2, p2, t2)) →
      evs.filter isFileWrite = [Event.writePoolInfoFile p2, Event.writeTxFile t2]) := by
  refine ⟨?_, ?_, ?_, ?_⟩
  · rw [initAcquire]
    rw [hsome]
  · rw [initAcquire]
    rw [hsome]
    by_cases h2 : (clampStart startBlock latest0 lookbackLimit).2 <;>
      simp [h2, isFileWrite, List.filter]
  · intro st latest hle
    rw [tick, if_neg (by omega)]
    simp [isFileWrite, List.filter]
  · intro st latest evs c2 p2 t2 hlt h
    rw [tick] at h
    rw [if_pos hlt] at h
    cases hp : processBlocks env fuel latest lookbackLimit
        (tickBlocks st.1 latest) (st.2.1, st.2.2) with
    | mk pevs pr =>
      rw [hp] at h
      cases pr with
      | none =>
        dsimp only at h
        rw [Prod.mk.injEq] at h
        exact absurd h.2 (by simp)
      | some bufs2 =>
        obtain ⟨p3, t3⟩ := bufs2
        dsimp only at h
        simp only [Prod.mk.injEq, Option.some.injEq] at h
        obtain ⟨hevs, -, hp2, ht2⟩ := h
        subst hp2 ht2 hevs
        rw [List.filter_append]
        have hnil : pevs.filter isFileWrite = [] := by
          rw [List.filter_eq_nil_iff]
          intro e he
          rw [processBlocks_no_fileWrite env fuel latest lookbackLimit
            (tickBlocks st.1 latest) (st.2.1, st.2.2) e (by rw [hp]; exact he)]
          simp
        rw [hnil]
        simp [isFileWrite, List.filter]

/-- Witness for C10 at a concrete initialization. -/
theorem c10_witness :
    (initAcquire env1 0 0 100).2 = some ((clampStart 0 0 100).1, [⟨0, true⟩], []) ∧
    (initAcquire env1 0 0 100).1.filter isFileWrite =
      [Event.writeConfigFile, Event.writePoolInfoFile [⟨0, true⟩]] ∧
    (tick env1 1 100 (0, [⟨0, true⟩], []) 0).1.filter isFileWrite = [] := by
  obtain ⟨h1, h2, h3, h4⟩ := c10_init_files env1 1 0 0 100 ⟨0, true⟩ rfl
  exact ⟨h1, h2, h3 (0, [⟨0, true⟩], []) 0 (by decide)⟩

end AcquireData
